import Mathlib

/-!
Shallow embedding of the `Meisterlala/wallpaper` daemon.

Sources embedded here:
- `src/state.rs` : `History`, `State`, the selection loop in `State::change_image`,
  `State::update_action`, `State::save`, `State::get_current_image`, accessors.
- `src/daemon.rs` : `read_from_stream` (length-prefixed framing) and
  `handle_connection` (command dispatch).
- `src/command.rs` : the command grammar (`Command`, `ModeArgs`, `GetArgs`).

Modelling conventions:
- Paths (`PathBuf`) are strings.  Tilde expansion (`PathBuf::starts_with("~/")`
  followed by re-rooting at `$HOME`) is modelled on strings; the value of the
  `HOME` environment variable is passed explicitly.
- `VecDeque<PathBuf> previous` is a `List Path`, oldest first: `push_back` is
  append at the end, `pop_front` is `tail`, `pop_back` is `dropLast`,
  `back()` is `getLast?`.
- `Vec<PathBuf> next` is a stack modelled as a `List Path` whose HEAD is the
  top of the stack (`Vec::push` = cons, `Vec::pop` = uncons).
- The random number generator (`rand::thread_rng().gen_range(0..num_pics)`) is
  modelled by an explicit stream of draws `List Nat`, each taken modulo the
  directory size; the directory listing (`fs::read_dir`) is an explicit
  `List Path` argument, fixed during one operation.
- The unbounded `loop { ... }` in `State::change_image` is modelled by
  structural recursion over the draw stream: exhausting the stream (`none`)
  means the loop has not terminated within the supplied draws.
- Panics (`unwrap` failures, `todo!()`) and `std::process::exit` inside the
  connection handler are modelled as `Except.error ()`.
- `Duration` values are modelled by their whole-second count (`Nat`), which is
  the only granularity the protocol reads or writes.
-/

namespace Wallpaper

/-- Filesystem paths (`PathBuf`) are modelled as opaque strings. -/
abbrev Path := String

/-- `History` from `src/state.rs`: bounded FIFO of shown images plus a redo stack. -/
structure History where
  /-- `previous: VecDeque<PathBuf>`, oldest first; the comment in the source says "Never empty". -/
  previous : List Path
  /-- `next: Vec<PathBuf>`; head of this list is the top of the stack. -/
  next : List Path
  /-- `history_max_size: usize`. -/
  history_max_size : Nat
deriving Repr, DecidableEq

/-- `History::has_next`. -/
def History.has_next (h : History) : Bool :=
  !h.next.isEmpty

/-- `History::has_previous`: rewind allowed only when at least two entries remain. -/
def History.has_previous (h : History) : Bool :=
  2 ≤ h.previous.length

/-- `History::push_back`: evict the front when already at capacity, then append. -/
def History.push_back (h : History) (path : Path) : History :=
  { h with previous :=
      (if h.history_max_size ≤ h.previous.length then h.previous.tail else h.previous) ++ [path] }

/-- `History::go_next`: pop the redo stack and re-append via `push_back`; warn-only no-op when empty. -/
def History.go_next (h : History) : History :=
  match h.next with
  | [] => h
  | image :: rest => History.push_back { h with next := rest } image

/-- `History::go_previous`: move the back of `previous` onto the redo stack; warn-only no-op otherwise. -/
def History.go_previous (h : History) : History :=
  if h.has_previous then
    match h.previous.getLast? with
    | some image => { h with previous := h.previous.dropLast, next := image :: h.next }
    | none => h
  else h

/-- `History::contains`: membership in `previous`. -/
def History.contains (h : History) (path : Path) : Bool :=
  h.previous.contains path

/-- `WallpaperCommands` from `src/state.rs` (external-setter command templates). -/
structure WallpaperCommands where
  wallpaper_cmd : String
  wallpaper_post_cmd : Option String
  wallpaper_post_offset : Option Nat
deriving Repr, DecidableEq

/-- `NextImage` from `src/state.rs`. -/
inductive NextImage where
  | Random
  | Linear
  | Static
deriving Repr, DecidableEq

/-- `ChangeImageDirection` from `src/state.rs`. -/
inductive ChangeImageDirection where
  | Next
  | Previous
deriving Repr, DecidableEq

/-- `State` from `src/state.rs`. -/
structure State where
  history : History
  action : NextImage
  previous_action : NextImage
  /-- `change_interval: Duration`, modelled as whole seconds. -/
  change_interval : Nat
  image_dir : Path
  use_fallback : Bool
  default_image : Path
  wallpaper_cmds : WallpaperCommands
deriving Repr, DecidableEq

/-- The tilde-expansion step of `State::new`: a path whose first component is `~`
is re-rooted at the invoking user's home directory (`std::env::var("HOME")`,
passed here explicitly). -/
def expand_tilde (home : Path) (p : Path) : Path :=
  match p.data with
  | '~' :: '/' :: rest => home ++ "/" ++ String.mk rest
  | _ => p

/-- `State::new`.  Note the source pushes `default_image.clone()` into the fresh
history BEFORE the tilde expansion shadows `default_image`, so the seed entry
is the unexpanded path. -/
def State.new (change_interval : Nat) (image_dir : Path) (default_image : Path)
    (action : NextImage) (wallpaper_cmds : WallpaperCommands)
    (history_max_size : Nat) (home : Path) : State :=
  { history :=
      { previous := [default_image]
        next := []
        history_max_size := history_max_size }
    action := action
    previous_action := action
    change_interval := change_interval
    image_dir := expand_tilde home image_dir
    use_fallback := false
    default_image := expand_tilde home default_image
    wallpaper_cmds := wallpaper_cmds }

/-- `self.history.previous.back().unwrap()` as used inside the pick loop; the
default is irrelevant because `previous` is non-empty whenever the loop runs. -/
def History.current (h : History) : Path :=
  h.previous.getLast?.getD ""

/-- The index computed by one iteration of the pick loop in `State::change_image`:
a fresh random draw in `Random` mode, otherwise the position of the current
image in the directory listing (0 if absent) plus one, modulo the count. -/
def pick_idx (action : NextImage) (listing : List Path) (h : History) (draw : Nat) : Nat :=
  if action = NextImage.Random then
    draw % listing.length
  else
    (((listing.findIdx? (fun e => e = h.current)).getD 0) + 1) % listing.length

/-- The `loop { ... }` of the `Next` branch of `State::change_image`: pick an
index, accept the picked path when it is not in history or the directory fits
inside the history window, otherwise retry.  One draw is consumed per
iteration; `none` means the loop did not terminate within the supplied draws. -/
def pick_loop (action : NextImage) (listing : List Path) (h : History) :
    List Nat → Option History
  | [] => none
  | draw :: rest =>
      if h.contains (listing.getD (pick_idx action listing h draw) "") = false
          ∨ listing.length ≤ h.history_max_size then
        some (h.push_back (listing.getD (pick_idx action listing h draw) ""))
      else
        pick_loop action listing h rest

/-- `State::change_image`.  `listing` stands for `fs::read_dir(&self.image_dir)`
and `draws` feeds the random picks; `none` propagates a non-terminating pick
loop. -/
def State.change_image (s : State) (direction : ChangeImageDirection)
    (listing : List Path) (draws : List Nat) : Option State :=
  if s.use_fallback then some s
  else if s.action = NextImage.Static then some s
  else
    match direction with
    | ChangeImageDirection.Next =>
        if s.history.has_next then
          some { s with history := s.history.go_next }
        else
          (pick_loop s.action listing s.history draws).map
            (fun h => { s with history := h })
    | ChangeImageDirection.Previous =>
        if s.history.has_previous then
          some { s with history := s.history.go_previous }
        else
          some s

/-- `State::update_action`: set the mode; when an explicit image is supplied,
append it to the history. -/
def State.update_action (s : State) (action : NextImage) (image : Option Path) : State :=
  match image with
  | some img => { s with action := action, history := s.history.push_back img }
  | none => { s with action := action }

/-- `State::save`: toggle the fallback flag; entering remembers the mode, forces
`Static` and pushes the default image; leaving restores the mode and pops the
back of `previous`. -/
def State.save (s : State) : State :=
  if !s.use_fallback then
    { s with use_fallback := true
             previous_action := s.action
             action := NextImage.Static
             history := s.history.push_back s.default_image }
  else
    { s with use_fallback := false
             action := s.previous_action
             history := { s.history with previous := s.history.previous.dropLast } }

/-- `State::get_current_image` returns `self.history.previous.back().unwrap()`;
the `none` case is the panic the source risks when `previous` is empty. -/
def State.get_current_image (s : State) : Option Path :=
  s.history.previous.getLast?

/-- `State::get_action`. -/
def State.get_action (s : State) : NextImage :=
  s.action

/-- `State::change_interval` (the setter; named apart from the field of the same name). -/
def State.set_interval (s : State) (i : Nat) : State :=
  { s with change_interval := i }

/-- `State::get_change_interval`, observed as whole seconds (`as_secs`). -/
def State.get_change_interval (s : State) : Nat :=
  s.change_interval

/-- `State::get_fallback`. -/
def State.get_fallback (s : State) : Bool :=
  s.use_fallback

/-- Modelled from the spec: `State::set_image_dir` replaces the directory
scanned by the selection policy ("`setImageDirectory(path)`: replaces the
directory scanned by the Selection Policy").  The method is called from
`src/daemon.rs` but its definition is not among the provided sources. -/
def State.set_image_dir (s : State) (p : Path) : State :=
  { s with image_dir := p }

/-- Modelled from the spec: `State::get_image_dir`, the read accessor for the
image directory ("Read accessors: ... image directory").  Called from
`src/daemon.rs` but not among the provided sources. -/
def State.get_image_dir (s : State) : Path :=
  s.image_dir

/-! ### Traces of state operations

Runners used to express reachability: `run_nexts` folds `change_image Next`
calls (the ticker / `next` command), `run` folds arbitrary public operations.
A pick loop that exhausts its draws leaves the state unchanged (`getD`),
restricting the traces to the terminating executions of the source. -/

/-- One `change_image Next` call: directory listing paired with the draw stream. -/
def apply_next (s : State) (op : List Path × List Nat) : State :=
  (s.change_image ChangeImageDirection.Next op.1 op.2).getD s

/-- Fold a sequence of `change_image Next` calls. -/
def run_nexts (s : State) (ops : List (List Path × List Nat)) : State :=
  ops.foldl apply_next s

/-- The public mutating operations reachable through the daemon
(`change_image`, `update_action`, `save`, `change_interval`). -/
inductive Op where
  | change (direction : ChangeImageDirection) (listing : List Path) (draws : List Nat)
  | update (action : NextImage) (image : Option Path)
  | save
  | interval (secs : Nat)

/-- Apply one public operation. -/
def apply_op (s : State) : Op → State
  | Op.change d listing draws => (s.change_image d listing draws).getD s
  | Op.update a img => s.update_action a img
  | Op.save => s.save
  | Op.interval n => s.set_interval n

/-- Fold a sequence of public operations. -/
def run (s : State) (ops : List Op) : State :=
  ops.foldl apply_op s

/-! ### Protocol layer (`src/daemon.rs`, `src/command.rs`)

Bytes are `Nat`s below 256; a request is the raw byte stream of one
connection.  `String::from_utf8` is modelled by a standard strict UTF-8
decoder over the byte list. -/

/-- UTF-8 continuation byte (`0x80 ..= 0xBF`). -/
def is_cont (b : Nat) : Bool :=
  0x80 ≤ b ∧ b ≤ 0xBF

/-- Strict UTF-8 decoding of a byte list (the validation performed by Rust's
`String::from_utf8`): rejects overlong encodings, surrogates and code points
above `U+10FFFF`; `none` is the `FromUtf8Error` the source `unwrap`s. -/
def utf8_decode : List Nat → Option (List Char)
  | [] => some []
  | b :: rest =>
    if b < 0x80 then
      (utf8_decode rest).map (fun cs => Char.ofNat b :: cs)
    else if 0xC2 ≤ b ∧ b ≤ 0xDF then
      match rest with
      | c1 :: rest1 =>
          if is_cont c1 then
            (utf8_decode rest1).map
              (fun cs => Char.ofNat ((b - 0xC0) * 0x40 + (c1 - 0x80)) :: cs)
          else none
      | [] => none
    else if 0xE0 ≤ b ∧ b ≤ 0xEF then
      match rest with
      | c1 :: c2 :: rest2 =>
          let ok1 :=
            if b = 0xE0 then 0xA0 ≤ c1 ∧ c1 ≤ 0xBF
            else if b = 0xED then 0x80 ≤ c1 ∧ c1 ≤ 0x9F
            else is_cont c1 = true
          if ok1 ∧ is_cont c2 then
            (utf8_decode rest2).map
              (fun cs =>
                Char.ofNat ((b - 0xE0) * 0x1000 + (c1 - 0x80) * 0x40 + (c2 - 0x80)) :: cs)
          else none
      | _ => none
    else if 0xF0 ≤ b ∧ b ≤ 0xF4 then
      match rest with
      | c1 :: c2 :: c3 :: rest3 =>
          let ok1 :=
            if b = 0xF0 then 0x90 ≤ c1 ∧ c1 ≤ 0xBF
            else if b = 0xF4 then 0x80 ≤ c1 ∧ c1 ≤ 0x8F
            else is_cont c1 = true
          if ok1 ∧ is_cont c2 ∧ is_cont c3 then
            (utf8_decode rest3).map
              (fun cs =>
                Char.ofNat ((b - 0xF0) * 0x40000 + (c1 - 0x80) * 0x1000
                  + (c2 - 0x80) * 0x40 + (c3 - 0x80)) :: cs)
          else none
      | _ => none
    else none

/-- `usize::from_ne_bytes` on x86-64: little-endian. -/
def from_ne_bytes (bs : List Nat) : Nat :=
  bs.foldr (fun b acc => b % 256 + 256 * acc) 0

/-- `read_from_stream` from `src/daemon.rs`: read an 8-byte native-order length
prefix (short read gives back the empty string), then exactly that many body
bytes (short read gives back the empty string), then
`String::from_utf8(buffer).unwrap()` — the `Except.error` case is that panic. -/
def read_from_stream (input : List Nat) : Except Unit String :=
  if input.length < 8 then Except.ok ""
  else
    let len := from_ne_bytes (input.take 8)
    let rest := input.drop 8
    if rest.length < len then Except.ok ""
    else
      match utf8_decode (rest.take len) with
      | some cs => Except.ok (String.mk cs)
      | none => Except.error ()

/-- `ModeArgs` from `src/command.rs`. -/
inductive ModeArgs where
  | Linear
  | Random
  | Static (path : Option Path)
deriving Repr, DecidableEq

/-- `GetArgs` from `src/command.rs`. -/
inductive GetArgs where
  | Wallpaper
  | Duration
  | Mode
  | Fallback
  | WpDir
deriving Repr, DecidableEq

/-- `Command` from `src/command.rs` (the `Daemon` payload is irrelevant to the
handler, which `todo!()`s on it). -/
inductive Command where
  | Next
  | Stop
  | Previous
  | Mode (mode : ModeArgs)
  | Fallback
  | WpDir (path : Path)
  | Interval (secs : Nat)
  | Get (what : GetArgs)
  | Daemon
deriving Repr, DecidableEq

/-- `line.split(' ')`: split on every single space, keeping empty tokens. -/
def split_chars (cur : List Char) : List Char → List (List Char)
  | [] => [cur.reverse]
  | c :: rest =>
      if c = ' ' then cur.reverse :: split_chars [] rest
      else split_chars (c :: cur) rest

/-- Tokenise a request line the way `handle_connection` does. -/
def split_spaces (s : String) : List String :=
  (split_chars [] s.data).map (fun l => String.mk l)

/-- Decimal parse of `u64` (`str::parse` via `parse_duration`); sizes handled
as unbounded naturals. -/
def parse_nat (s : String) : Option Nat :=
  if s.data ≠ [] ∧ s.data.all Char.isDigit then
    some (s.data.foldl (fun acc c => acc * 10 + (c.toNat - 48)) 0)
  else none

/-- The command grammar of the clap front-end, applied to the tokens of the
request line (the argv[0] placeholder `" "` the handler inserts is dropped by
clap and omitted here).  `none` is a clap parse error, on which `parse_from`
prints the error and exits the process. -/
def parse_command : List String → Option Command
  | ["next"] => some Command.Next
  | ["stop"] => some Command.Stop
  | ["previous"] => some Command.Previous
  | ["mode", "linear"] => some (Command.Mode ModeArgs.Linear)
  | ["mode", "random"] => some (Command.Mode ModeArgs.Random)
  | ["mode", "static"] => some (Command.Mode (ModeArgs.Static none))
  | ["mode", "static", p] => some (Command.Mode (ModeArgs.Static (some p)))
  | ["fallback"] => some Command.Fallback
  | ["wp-dir", p] => some (Command.WpDir p)
  | ["interval", n] => (parse_nat n).map Command.Interval
  | ["get", "wallpaper"] => some (Command.Get GetArgs.Wallpaper)
  | ["get", "duration"] => some (Command.Get GetArgs.Duration)
  | ["get", "mode"] => some (Command.Get GetArgs.Mode)
  | ["get", "fallback"] => some (Command.Get GetArgs.Fallback)
  | ["get", "wp-dir"] => some (Command.Get GetArgs.WpDir)
  | "daemon" :: _ => some Command.Daemon
  | _ => none

/-- `handle_connection` from `src/daemon.rs`, one request against the shared
state.  The result carries the response string, the state after the operation
and the `stop_server` flag; `Except.error ()` is a crash of the handler: the
UTF-8 `unwrap` panic, the process exit of a clap parse failure, the `todo!()`
of the `Daemon` arm, a `get wallpaper` panic on an empty history, or a pick
loop that never returns. -/
def handle_connection (input : List Nat) (s : State)
    (listing : List Path) (draws : List Nat) :
    Except Unit (String × State × Bool) :=
  match read_from_stream input with
  | Except.error e => Except.error e
  | Except.ok line =>
    match parse_command (split_spaces line) with
    | none => Except.error ()
    | some cmd =>
      match cmd with
      | Command.Next =>
          match s.change_image ChangeImageDirection.Next listing draws with
          | some t => Except.ok ("", t, false)
          | none => Except.error ()
      | Command.Stop => Except.ok ("", s, true)
      | Command.Previous =>
          match s.change_image ChangeImageDirection.Previous listing draws with
          | some t => Except.ok ("", t, false)
          | none => Except.error ()
      | Command.Mode m =>
          match m with
          | ModeArgs.Linear => Except.ok ("", s.update_action NextImage.Linear none, false)
          | ModeArgs.Random => Except.ok ("", s.update_action NextImage.Random none, false)
          | ModeArgs.Static p => Except.ok ("", s.update_action NextImage.Static p, false)
      | Command.Fallback => Except.ok ("", s.save, false)
      | Command.WpDir p => Except.ok ("", s.set_image_dir p, false)
      | Command.Interval n => Except.ok ("", s.set_interval n, false)
      | Command.Get g =>
          match g with
          | GetArgs.Wallpaper =>
              match s.get_current_image with
              | some p => Except.ok (p, s, false)
              | none => Except.error ()
          | GetArgs.Duration => Except.ok (toString s.get_change_interval, s, false)
          | GetArgs.Mode =>
              Except.ok
                (match s.get_action with
                 | NextImage.Linear => "Linear"
                 | NextImage.Static => "Static"
                 | NextImage.Random => "Random", s, false)
          | GetArgs.Fallback => Except.ok (if s.get_fallback then "true" else "false", s, false)
          | GetArgs.WpDir => Except.ok (s.get_image_dir, s, false)
      | Command.Daemon => Except.error ()

/-! ### Verification-level definitions -/

/-- Termination of the pick-retry loop: some draw stream makes it return. -/
def pick_loop_terminates (action : NextImage) (listing : List Path) (h : History) : Prop :=
  ∃ draws, (pick_loop action listing h draws).isSome = true

/-- The state invariant behind the "`History.previous` is never empty" claim:
a non-empty history whose capacity is at least two, with at least two entries
whenever the fallback image is active. -/
def SafeState (s : State) : Prop :=
  1 ≤ s.history.previous.length ∧
  (s.use_fallback = true → 2 ≤ s.history.previous.length) ∧
  2 ≤ s.history.history_max_size

/-- Command templates used by the concrete sample states (the config default). -/
def sample_cmds : WallpaperCommands :=
  { wallpaper_cmd := "feh -r %wallpaper%"
    wallpaper_post_cmd := none
    wallpaper_post_offset := none }

/-- A concrete daemon state: default capacity 25, `Random` mode. -/
def sample_state : State :=
  State.new 60 "/tmp/pics" "/tmp/a.png" NextImage.Random sample_cmds 25 "/home/u"

/-- A concrete daemon state with history capacity 1. -/
def cap1_state : State :=
  State.new 60 "/d" "/img" NextImage.Random sample_cmds 1 "/h"

/-! ## Helper lemmas -/

theorem History.push_back_history_max_size (h : History) (p : Path) :
    (h.push_back p).history_max_size = h.history_max_size := rfl

theorem History.push_back_next (h : History) (p : Path) :
    (h.push_back p).next = h.next := rfl

theorem History.push_back_previous (h : History) (p : Path) :
    (h.push_back p).previous =
      (if h.history_max_size ≤ h.previous.length then h.previous.tail else h.previous)
        ++ [p] := rfl

theorem History.push_back_previous_ne_nil (h : History) (p : Path) :
    (h.push_back p).previous ≠ [] := by
  simp [History.push_back]

theorem History.push_back_length_le (h : History) (p : Path)
    (hc : 1 ≤ h.history_max_size) (hl : h.previous.length ≤ h.history_max_size) :
    (h.push_back p).previous.length ≤ h.history_max_size := by
  rw [History.push_back_previous, List.length_append]
  split <;> simp only [List.length_tail, List.length_cons, List.length_nil] <;> omega

theorem History.push_back_length_ge_two (h : History) (p : Path)
    (hc : 2 ≤ h.history_max_size) (hl : 1 ≤ h.previous.length) :
    2 ≤ (h.push_back p).previous.length := by
  rw [History.push_back_previous, List.length_append]
  split <;> simp only [List.length_tail, List.length_cons, List.length_nil] <;> omega

theorem History.go_next_history_max_size (h : History) :
    h.go_next.history_max_size = h.history_max_size := by
  unfold History.go_next
  split <;> rfl

theorem History.go_next_length_le (h : History)
    (hc : 1 ≤ h.history_max_size) (hl : h.previous.length ≤ h.history_max_size) :
    h.go_next.previous.length ≤ h.history_max_size := by
  unfold History.go_next
  split
  · exact hl
  · exact History.push_back_length_le _ _ hc hl

theorem pick_loop_eq_some {action : NextImage} {listing : List Path} {h : History} :
    ∀ {draws : List Nat} {h' : History},
      pick_loop action listing h draws = some h' →
      ∃ p, h' = h.push_back p ∧
        (h.contains p = false ∨ listing.length ≤ h.history_max_size) := by
  intro draws
  induction draws with
  | nil => intro h' hh; exact absurd hh (by simp [pick_loop])
  | cons d rest ih =>
      intro h' hh
      rw [pick_loop] at hh
      split at hh
      · rename_i hcond
        exact ⟨_, (Option.some.injEq .. ▸ hh).symm, hcond⟩
      · exact ih hh

theorem apply_next_history (c : Nat) (hc : 1 ≤ c) (s : State)
    (hmax : s.history.history_max_size = c) (hlen : s.history.previous.length ≤ c)
    (op : List Path × List Nat) :
    (apply_next s op).history.history_max_size = c ∧
    (apply_next s op).history.previous.length ≤ c := by
  unfold apply_next State.change_image
  split
  · exact ⟨hmax, hlen⟩
  split
  · exact ⟨hmax, hlen⟩
  split
  · split
    · constructor
      · rw [Option.getD_some]
        show s.history.go_next.history_max_size = c
        rw [History.go_next_history_max_size, hmax]
      · rw [Option.getD_some]
        show s.history.go_next.previous.length ≤ c
        rw [← hmax]
        exact History.go_next_length_le s.history (hmax ▸ hc) (hmax ▸ hlen)
    · cases hpl : pick_loop s.action op.1 s.history op.2 with
      | none => rw [Option.map_none', Option.getD_none]; exact ⟨hmax, hlen⟩
      | some h' =>
          obtain ⟨p, rfl, -⟩ := pick_loop_eq_some hpl
          rw [Option.map_some', Option.getD_some]
          constructor
          · show (s.history.push_back p).history_max_size = c
            rw [History.push_back_history_max_size, hmax]
          · show (s.history.push_back p).previous.length ≤ c
            rw [← hmax]
            exact History.push_back_length_le _ _ (hmax ▸ hc) (hmax ▸ hlen)
  · rename_i heq
    exact absurd heq (by decide)

theorem run_nexts_history (c : Nat) (hc : 1 ≤ c) (ops : List (List Path × List Nat)) :
    ∀ s : State, s.history.history_max_size = c → s.history.previous.length ≤ c →
      (run_nexts s ops).history.history_max_size = c ∧
      (run_nexts s ops).history.previous.length ≤ c := by
  induction ops with
  | nil => intro s h1 h2; exact ⟨h1, h2⟩
  | cons op rest ih =>
      intro s h1 h2
      have hstep := apply_next_history c hc s h1 h2 op
      exact ih (apply_next s op) hstep.1 hstep.2

theorem History.push_back_length_ge_one (h : History) (p : Path) :
    1 ≤ (h.push_back p).previous.length := by
  rw [History.push_back_previous, List.length_append]
  simp only [List.length_cons, List.length_nil]
  omega

theorem History.go_next_length_ge_one (h : History) (hl : 1 ≤ h.previous.length) :
    1 ≤ h.go_next.previous.length := by
  unfold History.go_next
  split
  · exact hl
  · exact History.push_back_length_ge_one _ _

theorem History.go_previous_history_max_size (h : History) :
    h.go_previous.history_max_size = h.history_max_size := by
  unfold History.go_previous
  split
  · split <;> rfl
  · rfl

theorem History.go_previous_length_ge_one (h : History) (hl : 2 ≤ h.previous.length) :
    1 ≤ h.go_previous.previous.length := by
  unfold History.go_previous
  split
  · split
    · simp only [List.length_dropLast]; omega
    · omega
  · omega

theorem History.has_previous_iff (h : History) :
    h.has_previous = true ↔ 2 ≤ h.previous.length := by
  simp [History.has_previous]

theorem apply_op_safe (s : State) (hs : SafeState s) (op : Op) : SafeState (apply_op s op) := by
  obtain ⟨h1, h2, hc⟩ := hs
  cases op with
  | interval n => exact ⟨h1, h2, hc⟩
  | update a img =>
      cases img with
      | none => exact ⟨h1, h2, hc⟩
      | some p =>
          refine ⟨History.push_back_length_ge_one _ _, ?_, hc⟩
          intro hfb
          exact History.push_back_length_ge_two _ _ hc h1
  | save =>
      show SafeState s.save
      unfold State.save
      split
      · rename_i hfb
        refine ⟨History.push_back_length_ge_one _ _, ?_, hc⟩
        intro _
        exact History.push_back_length_ge_two _ _ hc h1
      · rename_i hfb
        have hfb' : s.use_fallback = true := by
          cases hb : s.use_fallback
          · rw [hb] at hfb; simp at hfb
          · rfl
        have hlen2 : 2 ≤ s.history.previous.length := h2 hfb'
        refine ⟨?_, ?_, hc⟩
        · show 1 ≤ s.history.previous.dropLast.length
          simp only [List.length_dropLast]; omega
        · intro hfalse
          exact absurd hfalse (by simp)
  | change d listing draws =>
      show SafeState ((s.change_image d listing draws).getD s)
      unfold State.change_image
      split
      · exact ⟨h1, h2, hc⟩
      split
      · exact ⟨h1, h2, hc⟩
      rename_i hnofb hnostat
      have hfb0 : s.use_fallback = false := by
        cases hb : s.use_fallback
        · rfl
        · exact absurd hb hnofb
      split
      · -- Next
        split
        · refine ⟨History.go_next_length_ge_one _ h1, ?_, ?_⟩
          · intro hfb; rw [hfb0] at hfb; cases hfb
          · show 2 ≤ s.history.go_next.history_max_size
            rw [History.go_next_history_max_size]; exact hc
        · cases hpl : pick_loop s.action listing s.history draws with
          | none =>
              rw [Option.map_none', Option.getD_none]
              exact ⟨h1, h2, hc⟩
          | some h' =>
              obtain ⟨p, rfl, -⟩ := pick_loop_eq_some hpl
              rw [Option.map_some', Option.getD_some]
              refine ⟨History.push_back_length_ge_one _ _, ?_, ?_⟩
              · intro hfb; rw [hfb0] at hfb; cases hfb
              · show 2 ≤ (s.history.push_back p).history_max_size
                rw [History.push_back_history_max_size]; exact hc
      · -- Previous
        split
        · rename_i hhp
          have hl2 : 2 ≤ s.history.previous.length := (History.has_previous_iff _).mp hhp
          refine ⟨History.go_previous_length_ge_one _ hl2, ?_, ?_⟩
          · intro hfb; rw [hfb0] at hfb; cases hfb
          · show 2 ≤ s.history.go_previous.history_max_size
            rw [History.go_previous_history_max_size]; exact hc
        · exact ⟨h1, h2, hc⟩

theorem run_safe (ops : List Op) : ∀ s : State, SafeState s → SafeState (run s ops) := by
  induction ops with
  | nil => intro s hs; exact hs
  | cons op rest ih => intro s hs; exact ih (apply_op s op) (apply_op_safe s hs op)

theorem getLast?_tail_of_two {l : List Path} (hl : 2 ≤ l.length) :
    l.tail.getLast? = l.getLast? := by
  cases l with
  | nil => simp at hl
  | cons a t =>
      cases t with
      | nil => simp at hl
      | cons b t2 => simp [List.getLast?_cons_cons]

theorem change_image_previous_eq (s : State) (l : List Path) (d : List Nat)
    (hfb : s.use_fallback = false) (hst : ¬ s.action = NextImage.Static)
    (hhp : s.history.has_previous = true) :
    s.change_image ChangeImageDirection.Previous l d
      = some { s with history := s.history.go_previous } := by
  simp [State.change_image, hfb, hst, hhp]

theorem change_image_next_redo (s : State) (l : List Path) (d : List Nat)
    (hfb : s.use_fallback = false) (hst : ¬ s.action = NextImage.Static)
    (hhn : s.history.has_next = true) :
    s.change_image ChangeImageDirection.Next l d
      = some { s with history := s.history.go_next } := by
  simp [State.change_image, hfb, hst, hhn]

theorem go_previous_eq (h : History) (p : Path) (hhp : h.has_previous = true)
    (hp : h.previous.getLast? = some p) :
    h.go_previous = { h with previous := h.previous.dropLast, next := p :: h.next } := by
  unfold History.go_previous
  rw [if_pos hhp, hp]

theorem change_image_frozen (s : State) (l : List Path) (d0 : List Nat)
    (dir : ChangeImageDirection)
    (hfroz : s.action = NextImage.Static ∨ s.use_fallback = true) :
    s.change_image dir l d0 = some s := by
  unfold State.change_image
  by_cases hfb : s.use_fallback = true
  · rw [if_pos hfb]
  · rw [if_neg hfb]
    have hst : s.action = NextImage.Static := by
      rcases hfroz with h | h
      · exact h
      · exact absurd h hfb
    rw [if_pos hst]

theorem save_enter (s : State) (hfb : s.use_fallback = false) :
    s.save = { s with
      use_fallback := true
      previous_action := s.action
      action := NextImage.Static
      history := s.history.push_back s.default_image } := by
  unfold State.save
  rw [hfb]
  rfl

theorem save_leave (s : State) (hfb : s.use_fallback = true) :
    s.save = { s with
      use_fallback := false
      action := s.previous_action
      history := { s.history with previous := s.history.previous.dropLast } } := by
  unfold State.save
  rw [hfb]
  rfl

/-! ## Claims -/

/-- C1: starting from a freshly constructed state with capacity `c ≥ 1`, no
sequence of `change_image Next` calls ever makes `History.previous` longer
than `c`, and a `push_back` against a full history evicts the oldest (front)
entry, FIFO. -/
theorem history_capacity_invariant
    (c : Nat) (hc : 1 ≤ c) (interval : Nat) (dir dimg home : Path)
    (mode : NextImage) (cmds : WallpaperCommands)
    (ops : List (List Path × List Nat))
    (h : History) (p : Path) (hm : h.history_max_size = c) (hf : h.previous.length = c) :
    (run_nexts (State.new interval dir dimg mode cmds c home) ops).history.previous.length ≤ c
    ∧ (h.push_back p).previous = h.previous.tail ++ [p] := by
  constructor
  · exact (run_nexts_history c hc ops _ rfl (by simp [State.new]; omega)).2
  · rw [History.push_back_previous, if_pos (by omega)]

/-- Witness for C1 at capacity 2 with one concrete `Next`. -/
theorem history_capacity_invariant_witness :
    1 ≤ 2 ∧ (⟨["/x", "/y"], [], 2⟩ : History).history_max_size = 2 ∧
      (⟨["/x", "/y"], [], 2⟩ : History).previous.length = 2 ∧
    ((run_nexts (State.new 60 "/p" "/i" NextImage.Random sample_cmds 2 "/h")
        [(["/a"], [0])]).history.previous.length ≤ 2
      ∧ ((⟨["/x", "/y"], [], 2⟩ : History).push_back "/z").previous
          = (⟨["/x", "/y"], [], 2⟩ : History).previous.tail ++ ["/z"]) :=
  ⟨by decide, rfl, rfl,
    history_capacity_invariant 2 (by decide) 60 "/p" "/i" "/h" NextImage.Random sample_cmds
      [(["/a"], [0])] ⟨["/x", "/y"], [], 2⟩ "/z" rfl rfl⟩

/-- C2 counterexample: with history capacity 1, the public operation sequence
`fallback; fallback` (two `save` calls) starting from a fresh state leaves
`History.previous` empty, so `get_current_image` has nothing to return. -/
theorem previous_empty_after_double_save_cap1 :
    (run cap1_state [Op.save, Op.save]).history.previous = [] ∧
    (run cap1_state [Op.save, Op.save]).get_current_image = none :=
  ⟨rfl, rfl⟩

/-- C2 (amended): provided the history capacity is at least 2,
`History.previous` is non-empty in every state reachable from `State::new`
through the public operations `change_image`, `update_action`, `save` and
`change_interval`, so `get_current_image` never fails. -/
theorem previous_nonempty_invariant
    (c : Nat) (hc : 2 ≤ c) (interval : Nat) (dir dimg home : Path)
    (mode : NextImage) (cmds : WallpaperCommands) (ops : List Op) :
    (run (State.new interval dir dimg mode cmds c home) ops).history.previous ≠ [] := by
  have hsafe : SafeState (State.new interval dir dimg mode cmds c home) := by
    refine ⟨by simp [State.new], ?_, by simpa [State.new] using hc⟩
    intro hfb
    exact absurd hfb (by simp [State.new])
  have hlen := (run_safe ops _ hsafe).1
  intro hnil
  rw [hnil] at hlen
  simp at hlen

/-- Witness for C2 at capacity 2 with two fallback toggles. -/
theorem previous_nonempty_invariant_witness :
    2 ≤ 2 ∧
    (run (State.new 60 "/d" "/i" NextImage.Random sample_cmds 2 "/h")
      [Op.save, Op.save]).history.previous ≠ [] :=
  ⟨by decide,
    previous_nonempty_invariant 2 (by decide) 60 "/d" "/i" "/h" NextImage.Random sample_cmds
      [Op.save, Op.save]⟩

/-- C3 counterexample: at capacity 1 the fallback round trip loses the current
image (entering evicts the sole entry, leaving pops the fallback entry), even
though the mode is restored. -/
theorem fallback_roundtrip_fails_cap1 :
    cap1_state.use_fallback = false ∧
    (cap1_state.save.save).get_action = cap1_state.get_action ∧
    ¬ (cap1_state.save.save).get_current_image = cap1_state.get_current_image :=
  ⟨rfl, rfl, by decide⟩

/-- C3 (amended): for every state with `use_fallback = false` whose history
capacity is at least 2, calling `save` twice restores both the mode and the
current image (back of `History.previous`). -/
theorem fallback_roundtrip_restores (s : State) (hfb : s.use_fallback = false)
    (hc : 2 ≤ s.history.history_max_size) :
    (s.save.save).get_action = s.get_action ∧
    (s.save.save).get_current_image = s.get_current_image := by
  have h1 := save_enter s hfb
  have h2 : s.save.save = { s.save with
      use_fallback := false
      action := s.save.previous_action
      history := { s.save.history with previous := s.save.history.previous.dropLast } } :=
    save_leave s.save (by rw [h1])
  constructor
  · rw [h2, h1]
    rfl
  · rw [h2, h1]
    show ((s.history.push_back s.default_image).previous.dropLast).getLast?
      = s.history.previous.getLast?
    rw [History.push_back_previous, List.dropLast_concat]
    split
    · rename_i hfull
      exact getLast?_tail_of_two (by omega)
    · rfl

/-- Witness for C3 on a concrete capacity-25 state. -/
theorem fallback_roundtrip_restores_witness :
    sample_state.use_fallback = false ∧ 2 ≤ sample_state.history.history_max_size ∧
    ((sample_state.save.save).get_action = sample_state.get_action ∧
      (sample_state.save.save).get_current_image = sample_state.get_current_image) :=
  ⟨rfl, by decide, fallback_roundtrip_restores sample_state rfl (by decide)⟩

/-- C4 counterexample: in `Linear` mode the retry loop recomputes the SAME
index each iteration (the current image does not change inside the loop), so
with directory `[/a,/b,/c]`, capacity 2 and history `[/b,/a]` the picked
path `/b` is rejected forever and the loop never terminates. -/
theorem linear_retry_loop_diverges :
    ¬ pick_loop_terminates NextImage.Linear ["/a", "/b", "/c"] ⟨["/b", "/a"], [], 2⟩ := by
  rintro ⟨draws, hsome⟩
  have hidx : ∀ d : Nat,
      pick_idx NextImage.Linear ["/a", "/b", "/c"] ⟨["/b", "/a"], [], 2⟩ d = 1 :=
    fun d => rfl
  have hnone : ∀ ds : List Nat,
      pick_loop NextImage.Linear ["/a", "/b", "/c"] ⟨["/b", "/a"], [], 2⟩ ds = none := by
    intro ds
    induction ds with
    | nil => rfl
    | cons d rest ih =>
        rw [pick_loop, hidx d, if_neg (by decide)]
        exact ih
  rw [hnone draws] at hsome
  simp at hsome

/-- C4 (amended): the pick-retry loop accepts the first pick whenever the
directory has at most `capacity` entries; in `Random` mode it terminates (for
a suitable draw) as soon as some directory entry is outside the history; in
`Linear` mode the index is recomputed identically each iteration, so the loop
terminates if and only if that single pick is acceptable. -/
theorem pick_loop_termination (listing : List Path) (h : History)
    (_hne : listing ≠ []) :
    ((∃ i, i < listing.length ∧ h.contains (listing.getD i "") = false) ∨
        listing.length ≤ h.history_max_size →
      pick_loop_terminates NextImage.Random listing h) ∧
    (pick_loop_terminates NextImage.Linear listing h ↔
      (h.contains (listing.getD (pick_idx NextImage.Linear listing h 0) "") = false ∨
        listing.length ≤ h.history_max_size)) := by
  constructor
  · rintro (⟨i, hi, hco⟩ | hle)
    · refine ⟨[i], ?_⟩
      have hmod : pick_idx NextImage.Random listing h i = i := by
        show i % listing.length = i
        exact Nat.mod_eq_of_lt hi
      rw [pick_loop, hmod, if_pos (Or.inl hco)]
      rfl
    · exact ⟨[0], by rw [pick_loop, if_pos (Or.inr hle)]; rfl⟩
  · constructor
    · rintro ⟨draws, hsome⟩
      induction draws with
      | nil => simp [pick_loop] at hsome
      | cons d rest ih =>
          rw [pick_loop] at hsome
          by_cases hcond :
            (h.contains (listing.getD (pick_idx NextImage.Linear listing h d) "") = false ∨
              listing.length ≤ h.history_max_size)
          · have hdd : pick_idx NextImage.Linear listing h d
                = pick_idx NextImage.Linear listing h 0 := rfl
            rw [hdd] at hcond
            exact hcond
          · rw [if_neg hcond] at hsome
            exact ih hsome
    · intro hcond
      exact ⟨[0], by rw [pick_loop, if_pos hcond]; rfl⟩

/-- Witness for C4 on a one-entry directory. -/
theorem pick_loop_termination_witness :
    (["/a"] : List Path) ≠ [] ∧
    (((∃ i, i < (["/a"] : List Path).length ∧
          (⟨["/b"], [], 3⟩ : History).contains ((["/a"] : List Path).getD i "") = false) ∨
        (["/a"] : List Path).length ≤ (⟨["/b"], [], 3⟩ : History).history_max_size →
        pick_loop_terminates NextImage.Random ["/a"] ⟨["/b"], [], 3⟩) ∧
      (pick_loop_terminates NextImage.Linear ["/a"] ⟨["/b"], [], 3⟩ ↔
        ((⟨["/b"], [], 3⟩ : History).contains
            ((["/a"] : List Path).getD (pick_idx NextImage.Linear ["/a"] ⟨["/b"], [], 3⟩ 0) "")
          = false ∨
          (["/a"] : List Path).length ≤ (⟨["/b"], [], 3⟩ : History).history_max_size))) :=
  ⟨by decide, pick_loop_termination ["/a"] ⟨["/b"], [], 3⟩ (by decide)⟩

/-- C5: in `Random` mode over a directory strictly larger than the history
capacity, a terminated pick loop always appended a path that was not in
`History.previous` when it was picked. -/
theorem random_pick_fresh (listing : List Path) (h : History) (draws : List Nat)
    (hout : History) (hK : h.history_max_size < listing.length)
    (hrun : pick_loop NextImage.Random listing h draws = some hout) :
    ∃ p, h.contains p = false ∧ hout = h.push_back p := by
  obtain ⟨p, rfl, hcond⟩ := pick_loop_eq_some hrun
  refine ⟨p, ?_, rfl⟩
  rcases hcond with hc1 | hc2
  · exact hc1
  · omega

/-- Witness for C5: directory `[/a,/b]`, capacity 1, history `[/a]`, draw 1. -/
theorem random_pick_fresh_witness :
    (⟨["/a"], [], 1⟩ : History).history_max_size < (["/a", "/b"] : List Path).length ∧
    pick_loop NextImage.Random ["/a", "/b"] ⟨["/a"], [], 1⟩ [1] = some ⟨["/b"], [], 1⟩ ∧
    ∃ p, (⟨["/a"], [], 1⟩ : History).contains p = false ∧
      (⟨["/b"], [], 1⟩ : History) = (⟨["/a"], [], 1⟩ : History).push_back p :=
  ⟨by decide, rfl,
    random_pick_fresh ["/a", "/b"] ⟨["/a"], [], 1⟩ [1] ⟨["/b"], [], 1⟩ (by decide) rfl⟩

/-- C6 (evaluating the code at the failing inputs): a framed request whose
single body byte `0xFF` is not valid UTF-8 crashes the connection handler
(the `String::from_utf8(..).unwrap()` panic), and a well-formed request whose
tokens (`bogus`) do not match the command grammar makes clap exit the
process; neither writes a response. -/
theorem invalid_request_crashes_handler :
    handle_connection ([1, 0, 0, 0, 0, 0, 0, 0] ++ [0xFF]) sample_state [] []
      = Except.error () ∧
    handle_connection ([5, 0, 0, 0, 0, 0, 0, 0] ++ [98, 111, 103, 117, 115]) sample_state [] []
      = Except.error () :=
  ⟨rfl, rfl⟩

/-- C7: from a state with at least two history entries, not in fallback, not
`Static`, and an empty redo stack, `change_image Previous` followed by
`change_image Next` restores exactly the current image shown before the
pair. -/
theorem previous_then_next_roundtrip (s : State)
    (hfb : s.use_fallback = false) (hst : ¬ s.action = NextImage.Static)
    (hprev : 2 ≤ s.history.previous.length) (hnext : s.history.next = [])
    (l1 l2 : List Path) (d1 d2 : List Nat) :
    ((s.change_image ChangeImageDirection.Previous l1 d1).bind
        (fun t => t.change_image ChangeImageDirection.Next l2 d2)).map
      State.get_current_image = some s.get_current_image := by
  have hne : s.history.previous ≠ [] := by
    intro hn
    rw [hn] at hprev
    simp at hprev
  obtain ⟨p, hp⟩ := Option.isSome_iff_exists.mp (List.getLast?_isSome.mpr hne)
  have hhp : s.history.has_previous = true := (History.has_previous_iff _).mpr hprev
  rw [change_image_previous_eq s l1 d1 hfb hst hhp,
    go_previous_eq s.history p hhp hp, hnext, Option.some_bind]
  rw [change_image_next_redo
    { s with history := (⟨s.history.previous.dropLast, [p], s.history.history_max_size⟩ : History) }
    l2 d2 hfb hst rfl]
  simp only [Option.map_some']
  show some ((History.push_back
      { previous := s.history.previous.dropLast, next := [], history_max_size
          := s.history.history_max_size } p).previous.getLast?)
    = some s.history.previous.getLast?
  rw [History.push_back_previous, List.getLast?_concat, hp]

/-- Witness for C7: history `[/a,/b]`, capacity 25, `Random` mode. -/
theorem previous_then_next_roundtrip_witness :
    ({ sample_state with history := ⟨["/a", "/b"], [], 25⟩ } : State).use_fallback = false ∧
    ¬ ({ sample_state with history := ⟨["/a", "/b"], [], 25⟩ } : State).action
        = NextImage.Static ∧
    2 ≤ ({ sample_state with history := ⟨["/a", "/b"], [], 25⟩ } : State).history.previous.length ∧
    ({ sample_state with history := ⟨["/a", "/b"], [], 25⟩ } : State).history.next = [] ∧
    ((({ sample_state with history := ⟨["/a", "/b"], [], 25⟩ } : State).change_image
          ChangeImageDirection.Previous [] []).bind
        (fun t => t.change_image ChangeImageDirection.Next [] [])).map
      State.get_current_image
      = some ({ sample_state with history := ⟨["/a", "/b"], [], 25⟩ } : State).get_current_image :=
  ⟨rfl, by decide, by decide, rfl,
    previous_then_next_roundtrip { sample_state with history := ⟨["/a", "/b"], [], 25⟩ }
      rfl (by decide) (by decide) rfl [] [] [] []⟩

/-- C8: while the mode is `Static` or the fallback image is active, any
sequence of `change_image` calls leaves the state (hence the whole history
and the current image) unchanged, while an explicit `update_action` with an
image changes the current image exactly once, to that image. -/
theorem static_freeze_frame (s : State)
    (hfroz : s.action = NextImage.Static ∨ s.use_fallback = true)
    (ops : List (ChangeImageDirection × List Path × List Nat))
    (m : NextImage) (img : Path) :
    ops.foldl (fun t op => (t.change_image op.1 op.2.1 op.2.2).getD t) s = s ∧
    (s.update_action m (some img)).get_current_image = some img := by
  constructor
  · induction ops with
    | nil => rfl
    | cons op rest ih =>
        rw [List.foldl_cons, change_image_frozen s op.2.1 op.2.2 op.1 hfroz, Option.getD_some]
        exact ih
  · show ((s.history.push_back img).previous).getLast? = some img
    rw [History.push_back_previous, List.getLast?_concat]

/-- Witness for C8 on a concrete `Static`-mode state. -/
theorem static_freeze_frame_witness :
    ((State.new 60 "/p" "/i" NextImage.Static sample_cmds 25 "/h").action
        = NextImage.Static ∨
      (State.new 60 "/p" "/i" NextImage.Static sample_cmds 25 "/h").use_fallback = true) ∧
    (([(ChangeImageDirection.Next, ["/a"], [0]),
        (ChangeImageDirection.Previous, [], [])].foldl
        (fun t op => (t.change_image op.1 op.2.1 op.2.2).getD t)
        (State.new 60 "/p" "/i" NextImage.Static sample_cmds 25 "/h"))
        = State.new 60 "/p" "/i" NextImage.Static sample_cmds 25 "/h" ∧
      ((State.new 60 "/p" "/i" NextImage.Static sample_cmds 25 "/h").update_action
          NextImage.Static (some "/z")).get_current_image = some "/z") :=
  ⟨Or.inl rfl,
    static_freeze_frame (State.new 60 "/p" "/i" NextImage.Static sample_cmds 25 "/h")
      (Or.inl rfl)
      [(ChangeImageDirection.Next, ["/a"], [0]), (ChangeImageDirection.Previous, [], [])]
      NextImage.Static "/z"⟩

/-- C9 counterexample: with `HOME = /home/u` and tilde paths, `State::new`
expands the stored image directory and default image, but the single seed
entry of `History.previous` is the UNexpanded default-image path. -/
theorem seed_entry_not_expanded :
    (State.new 60 "~/pics" "~/img.png" NextImage.Random sample_cmds 25 "/home/u").image_dir
        = "/home/u/pics" ∧
    (State.new 60 "~/pics" "~/img.png" NextImage.Random sample_cmds 25 "/home/u").default_image
        = "/home/u/img.png" ∧
    ¬ (State.new 60 "~/pics" "~/img.png" NextImage.Random sample_cmds
        25 "/home/u").history.previous
      = [expand_tilde "/home/u" "~/img.png"] :=
  ⟨rfl, rfl, by decide⟩

/-- C9 (amended): `State::new` home-expands the stored image directory and the
stored default image, once, at construction; the seed entry of
`History.previous` is the original (unexpanded) default-image argument. -/
theorem new_expands_tilde_fields (interval : Nat) (dir dimg home : Path)
    (mode : NextImage) (cmds : WallpaperCommands) (cap : Nat) :
    (State.new interval dir dimg mode cmds cap home).image_dir = expand_tilde home dir ∧
    (State.new interval dir dimg mode cmds cap home).default_image
      = expand_tilde home dimg ∧
    (State.new interval dir dimg mode cmds cap home).history.previous = [dimg] :=
  ⟨rfl, rfl, rfl⟩

/-- C10: while the fallback image is active, `update_action` is not
suppressed — it still sets the mode and appends the explicit image — and a
subsequent `save` (leaving fallback) pops exactly that explicit image and
overwrites the explicitly set mode with the remembered pre-fallback mode. -/
theorem update_action_during_fallback (s : State) (m : NextImage) (img : Path)
    (hfb : s.use_fallback = true) :
    (s.update_action m (some img)).get_action = m ∧
    (s.update_action m (some img)).get_current_image = some img ∧
    ((s.update_action m (some img)).save).get_fallback = false ∧
    ((s.update_action m (some img)).save).get_action = s.previous_action ∧
    ((s.update_action m (some img)).save).history.previous
      = (s.update_action m (some img)).history.previous.dropLast ∧
    (s.update_action m (some img)).history.previous
      = (if s.history.history_max_size ≤ s.history.previous.length
          then s.history.previous.tail else s.history.previous) ++ [img] := by
  have hsl := save_leave (s.update_action m (some img)) hfb
  refine ⟨rfl, ?_, ?_, ?_, ?_, rfl⟩
  · show ((s.history.push_back img).previous).getLast? = some img
    rw [History.push_back_previous, List.getLast?_concat]
  · rw [hsl]
    rfl
  · rw [hsl]
    rfl
  · rw [hsl]

/-- Witness for C10: fallback active, capacity-2 history `[/f]`. -/
theorem update_action_during_fallback_witness :
    ({ sample_state with use_fallback := true, history := ⟨["/f"], [], 2⟩ } : State).use_fallback
        = true ∧
    ((({ sample_state with use_fallback := true, history := ⟨["/f"], [], 2⟩ } : State).update_action
          NextImage.Linear (some "/e")).get_action = NextImage.Linear ∧
      (({ sample_state with use_fallback := true, history := ⟨["/f"], [], 2⟩ } : State).update_action
          NextImage.Linear (some "/e")).get_current_image = some "/e" ∧
      ((({ sample_state with use_fallback := true, history := ⟨["/f"], [], 2⟩ } : State).update_action
          NextImage.Linear (some "/e")).save).get_fallback = false ∧
      ((({ sample_state with use_fallback := true, history := ⟨["/f"], [], 2⟩ } : State).update_action
          NextImage.Linear (some "/e")).save).get_action
        = ({ sample_state with use_fallback := true, history := ⟨["/f"], [], 2⟩ } : State).previous_action ∧
      ((({ sample_state with use_fallback := true, history := ⟨["/f"], [], 2⟩ } : State).update_action
          NextImage.Linear (some "/e")).save).history.previous
        = (({ sample_state with use_fallback := true, history := ⟨["/f"], [], 2⟩ } : State).update_action
            NextImage.Linear (some "/e")).history.previous.dropLast ∧
      (({ sample_state with use_fallback := true, history := ⟨["/f"], [], 2⟩ } : State).update_action
          NextImage.Linear (some "/e")).history.previous
        = (if ({ sample_state with use_fallback := true, history := ⟨["/f"], [], 2⟩ } : State).history.history_max_size
              ≤ ({ sample_state with use_fallback := true, history := ⟨["/f"], [], 2⟩ } : State).history.previous.length
            then ({ sample_state with use_fallback := true, history := ⟨["/f"], [], 2⟩ } : State).history.previous.tail
            else ({ sample_state with use_fallback := true, history := ⟨["/f"], [], 2⟩ } : State).history.previous)
          ++ ["/e"]) :=
  ⟨rfl,
    update_action_during_fallback
      { sample_state with use_fallback := true, history := ⟨["/f"], [], 2⟩ }
      NextImage.Linear "/e" rfl⟩

end Wallpaper
